import Mathlib

set_option maxHeartbeats 1000000

/-!
Verification development for the Onboarding-Platform UI core.

The TypeScript/React-Native source is embedded shallowly:
strings are modelled as lists of characters (`Str`), JavaScript string
operations (`split`, `trim`, `parseInt`, `padStart`) as executable Lean
functions with the same semantics, and the JavaScript `Date` constructor
as exact calendar arithmetic (including component roll-over and the
two-digit-year rule of `new Date(y, m, d)`).  The bounded loops of the
calendar normalisation are written with an explicit fuel argument so
that they are structurally recursive and kernel-evaluable; the fuel
supplied at each call site provably suffices.
-/

/-- Strings are modelled as lists of characters. -/
abbrev Str := List Char

/-- Whitespace characters recognised by JavaScript `trim` and by the
whitespace-skipping phase of `parseInt` (the rarer Unicode space
characters are irrelevant to every input considered here). -/
def isJsWs (c : Char) : Bool := c = ' ' ∨ c = '\t' ∨ c = '\n' ∨ c = '\r'

/-- JavaScript `String.prototype.trim`. -/
def jsTrim (s : Str) : Str :=
  ((s.dropWhile isJsWs).reverse.dropWhile isJsWs).reverse

/-- JavaScript `String.prototype.split` with a single-character separator:
`"".split(c)` is `[""]`, separators at the ends or adjacent separators
produce empty parts. -/
def jsSplit (sep : Char) : Str → List Str
  | [] => [[]]
  | c :: rest =>
    match jsSplit sep rest with
    | [] => []
    | p :: ps => if c = sep then [] :: p :: ps else (c :: p) :: ps

/-- Decimal digit test, `c` between `'0'` and `'9'`. -/
def isDigitCh (c : Char) : Bool := '0' ≤ c ∧ c ≤ '9'

/-- Value of a big-endian digit string (Horner evaluation). -/
def decodeDigits (l : Str) : Nat :=
  l.foldl (fun a c => a * 10 + (c.toNat - 48)) 0

/-- JavaScript `parseInt(s, 10)`: skip leading whitespace, read an
optional sign, then the longest prefix of decimal digits; characters
after the digits are ignored; the result is `none` (NaN) when no digit
is found. -/
def parseIntJs (s : Str) : Option Int :=
  let core : Str → Option Int := fun u =>
    let ds := u.takeWhile isDigitCh
    if ds.isEmpty then none else some (decodeDigits ds)
  match s.dropWhile isJsWs with
  | '-' :: rest => (core rest).map (fun n => -n)
  | '+' :: rest => core rest
  | t => core t

/-- Little-endian decimal digit characters of `n`; the first argument is
fuel, sufficient whenever it is at least `n`. -/
def digitsRevChars : Nat → Nat → Str
  | 0, _ => []
  | _ + 1, 0 => []
  | f + 1, n + 1 =>
    Nat.digitChar ((n + 1) % 10) :: digitsRevChars f ((n + 1) / 10)

/-- Decimal digit string of a natural number, as produced by JavaScript
`String(n)` for a non-negative integer. -/
def natChars (n : Nat) : Str :=
  if n = 0 then ['0'] else (digitsRevChars n n).reverse

/-- JavaScript `String(y)` for an integer `y`. -/
def intChars (y : Int) : Str :=
  if y < 0 then '-' :: natChars (-y).toNat else natChars y.toNat

/-- JavaScript `s.padStart(2, '0')`. -/
def pad2 (s : Str) : Str := List.replicate (2 - s.length) '0' ++ s

/-- A calendar date as held by a JavaScript `Date` at local midnight:
`year` is `getFullYear()`, `month` is the zero-based `getMonth()`,
`day` is `getDate()`. -/
structure CalDate where
  year : Int
  month : Nat
  day : Nat
deriving DecidableEq, Repr

/-- Gregorian leap-year rule used by JavaScript dates. -/
def isLeap (y : Int) : Bool := (y % 4 = 0 ∧ y % 100 ≠ 0) ∨ y % 400 = 0

/-- Number of days of zero-based month `m` of year `y` (month indices
twelve and above never reach this function; the value there is
arbitrary). -/
def daysInMonth (y : Int) (m : Nat) : Nat :=
  match m with
  | 0 => 31
  | 1 => if isLeap y then 29 else 28
  | 2 => 31
  | 3 => 30
  | 4 => 31
  | 5 => 30
  | 6 => 31
  | 7 => 31
  | 8 => 30
  | 9 => 31
  | 10 => 30
  | _ => 31

/-- Successor month, carrying into the next year. -/
def nextMonth (y : Int) (m : Nat) : Int × Nat :=
  if m = 11 then (y + 1, 0) else (y, m + 1)

/-- Predecessor month, borrowing from the previous year. -/
def prevMonth (y : Int) (m : Nat) : Int × Nat :=
  match m with
  | 0 => (y - 1, 11)
  | n + 1 => (y, n)

/-- Day-overflow normalisation of the JavaScript `Date` constructor:
while the day exceeds the month length, subtract the month length and
advance one month.  The first argument is fuel; since every step
shrinks the day by at least one, fuel `d.toNat` suffices. -/
def normUp : Nat → Int → Nat → Int → Int × Nat × Int
  | 0, y, m, d => (y, m, d)
  | f + 1, y, m, d =>
    if (daysInMonth y m : Int) < d then
      normUp f (nextMonth y m).1 (nextMonth y m).2 (d - daysInMonth y m)
    else (y, m, d)

/-- Day-underflow normalisation of the JavaScript `Date` constructor:
while the day is below one, borrow the length of the previous month.
The first argument is fuel; since every step grows the day by at least
one, fuel `(1 - d).toNat` suffices. -/
def normDown : Nat → Int → Nat → Int → Int × Nat × Int
  | 0, y, m, d => (y, m, d)
  | f + 1, y, m, d =>
    let ym := prevMonth y m
    let d2 := d + daysInMonth ym.1 ym.2
    if d2 < 1 then normDown f ym.1 ym.2 d2 else (ym.1, ym.2, d2)

/-- The JavaScript constructor `new Date(year, month, day)` at local
midnight: a year between 0 and 99 is mapped to 1900 + year, the month is
reduced modulo 12 with floor-carry into the year, and the day is
normalised by rolling over or borrowing whole months. -/
def jsNewDate (year month day : Int) : CalDate :=
  let y := if 0 ≤ year ∧ year ≤ 99 then year + 1900 else year
  let ym := y + month.fdiv 12
  let mn := (month.emod 12).toNat
  let r :=
    if day < 1 then normDown (1 - day).toNat ym mn day
    else normUp day.toNat ym mn day
  ⟨r.1, r.2.1, r.2.2.toNat⟩

/-- The date `d` is a real calendar date. -/
def validCalDate (d : CalDate) : Prop :=
  d.month < 12 ∧ 1 ≤ d.day ∧ d.day ≤ daysInMonth d.year d.month

instance (d : CalDate) : Decidable (validCalDate d) := by
  unfold validCalDate; infer_instance

/-- The three canonical date formats of the CalendarPicker. -/
inductive DateFormat
  | ddmmyyyy
  | mmddyyyy
  | yyyymmdd
deriving DecidableEq, Repr

/-- Separator character of each format. -/
def sepOf : DateFormat → Char
  | .ddmmyyyy => '/'
  | .mmddyyyy => '/'
  | .yyyymmdd => '-'

/-- The format name as interpolated into the error message. -/
def fmtChars : DateFormat → Str
  | .ddmmyyyy => "DD/MM/YYYY".toList
  | .mmddyyyy => "MM/DD/YYYY".toList
  | .yyyymmdd => "YYYY-MM-DD".toList

/-- CalendarPicker `formatDate`: day and month padded to two digits,
year unpadded, joined by the format separator in format order. -/
def formatDate (fmt : DateFormat) (d : CalDate) : Str :=
  let dd := pad2 (natChars d.day)
  let mm := pad2 (natChars (d.month + 1))
  let yy := intChars d.year
  match fmt with
  | .ddmmyyyy => dd ++ '/' :: (mm ++ '/' :: yy)
  | .mmddyyyy => mm ++ '/' :: (dd ++ '/' :: yy)
  | .yyyymmdd => yy ++ '-' :: (mm ++ '-' :: dd)

/-- CalendarPicker `parseDate`: empty after trim gives `none`; the text
is split on the separator and must give exactly three parts; components
are read with `parseInt` (a component without digits is NaN, which makes
the constructed `Date` invalid and is rejected by the `isNaN` guard);
the date is built with `new Date(year, month, day)` and the result is
accepted only when its day, month and year exactly equal the parsed
components. -/
def parseDate (fmt : DateFormat) (s : Str) : Option CalDate :=
  if (jsTrim s).isEmpty then none
  else
    match jsSplit (sepOf fmt) s with
    | [p1, p2, p3] =>
      let comps : Option Int × Option Int × Option Int :=
        match fmt with
        | .ddmmyyyy => (parseIntJs p1, (parseIntJs p2).map (· - 1), parseIntJs p3)
        | .mmddyyyy => (parseIntJs p2, (parseIntJs p1).map (· - 1), parseIntJs p3)
        | .yyyymmdd => (parseIntJs p3, (parseIntJs p2).map (· - 1), parseIntJs p1)
      match comps with
      | (some day, some month, some year) =>
        let r := jsNewDate year month day
        if (r.day : Int) = day ∧ (r.month : Int) = month ∧ r.year = year
        then some r else none
      | _ => none
    | _ => none

/-- Configuration of a CalendarPicker instance (props fixed for the
instance lifetime). -/
structure DateFieldCfg where
  format : DateFormat
  required : Bool
  minDate : Option CalDate
  maxDate : Option CalDate

/-- Numeric comparison `a < b` of two JavaScript `Date` objects both at
local midnight; on such dates it is the lexicographic order on
(year, month, day). -/
def dateLtB (a b : CalDate) : Bool :=
  a.year < b.year ∨
    (a.year = b.year ∧ (a.month < b.month ∨ (a.month = b.month ∧ a.day < b.day)))

/-- CalendarPicker `validateDate`: required check, then parseability,
then the lower bound, then the upper bound; the first failing check
produces the whole result, and the empty string means valid. -/
def validateDate (cfg : DateFieldCfg) (s : Str) : Str :=
  if cfg.required ∧ (jsTrim s).isEmpty then "Date is required".toList
  else if (jsTrim s).isEmpty then []
  else
    match parseDate cfg.format s with
    | none => "Invalid date format. Use ".toList ++ fmtChars cfg.format
    | some d =>
      let maxCheck : Str :=
        match cfg.maxDate with
        | some mx =>
          if dateLtB mx d then "Date must be before ".toList ++ formatDate cfg.format mx
          else []
        | none => []
      match cfg.minDate with
      | some mn =>
        if dateLtB d mn then "Date must be after ".toList ++ formatDate cfg.format mn
        else maxCheck
      | none => maxCheck

/-- Local state of the CalendarPicker composite control. -/
structure DFState where
  textValue : Str
  error : Str
  isTouched : Bool
deriving DecidableEq, Repr

/-- JavaScript runtime error raised by the embedded handler. -/
inductive JsError
  | referenceError
deriving DecidableEq, Repr

/-- CalendarPicker `handleTextChange`, embedded together with its scope
bug: the source stores the new text, and when the field is touched it
computes and stores the validation error into a constant declared
inside the `if (isTouched)` block; the subsequent read of that constant
in `if (!validationError)` sits outside the declaring block, so the
identifier is not in scope there and every invocation throws a
ReferenceError before the `onChange` callback can fire.  The result
pairs the component state as left by the `setState` calls made before
the throw with the outcome of the call: `Except.error` for the throw,
or (were the read in scope) `Except.ok` with the text emitted to the
enclosing form. -/
def handleTextChange (cfg : DateFieldCfg) (st : DFState) (text : Str) :
    DFState × Except JsError (Option Str) :=
  let st1 := { st with textValue := text }
  let st2 := if st.isTouched then { st1 with error := validateDate cfg text } else st1
  (st2, Except.error JsError.referenceError)

/-- CalendarPicker `handleBlur`: mark touched and validate the current
text. -/
def dfHandleBlur (cfg : DateFieldCfg) (st : DFState) : DFState :=
  { st with isTouched := true, error := validateDate cfg st.textValue }

/-- A declarative validation rule of the CustomTextInput engine.  The
`regex` pattern is kept as the abstract decision function of the
supplied pattern (`rule.value` may be absent, in which case the rule
never fails); `custom` carries the optional predicate. -/
inductive VRule
  | required (message : Str)
  | minLength (value : Nat) (message : Str)
  | maxLength (value : Nat) (message : Str)
  | email (message : Str)
  | regex (pattern : Option (Str → Bool)) (message : Str)
  | custom (validator : Option (Str → Bool)) (message : Str)

/-- The message attached to a rule. -/
def VRule.message : VRule → Str
  | .required m => m
  | .minLength _ m => m
  | .maxLength _ m => m
  | .email m => m
  | .regex _ m => m
  | .custom _ m => m

/-- The anchored email shape of the source: one or more characters that
are neither whitespace nor `@`, then `@`, then a part that again has no
whitespace or `@` and contains a dot with at least one character on
each side (the character class includes the dot itself, so this is
exactly the language of the regex). -/
def emailTest (s : Str) : Bool :=
  match jsSplit '@' s with
  | [a, b] =>
    ¬a.isEmpty ∧ a.all (fun c => ¬isJsWs c) ∧
      b.all (fun c => ¬isJsWs c) ∧ ((b.drop 1).dropLast).contains '.'
  | _ => false

/-- Failure condition of one rule against a value, exactly as in the
`switch` of `validate`: `required` fails on blank trim; the length
rules compare against the bound; `email` and `regex` fail only on
non-empty input (and `regex` only when a pattern was supplied);
`custom` fails when the supplied predicate rejects. -/
def ruleFails (r : VRule) (text : Str) : Bool :=
  match r with
  | .required _ => (jsTrim text).isEmpty
  | .minLength n _ => text.length < n
  | .maxLength n _ => text.length > n
  | .email _ => ¬text.isEmpty ∧ ¬emailTest text
  | .regex p _ =>
    match p with
    | some f => ¬text.isEmpty ∧ ¬f text
    | none => false
  | .custom v _ =>
    match v with
    | some f => ¬f text
    | none => false

/-- CustomTextInput `validate`: walk the rules in declaration order and
push the message of every failing rule. -/
def validate (validators : List VRule) (text : Str) : List Str :=
  validators.foldl (fun acc r => if ruleFails r text then acc ++ [r.message] else acc) []

/-- Local state of a CustomTextInput in uncontrolled mode (the value is
owned internally; the controlled mode differs only in where the value
lives). -/
structure TFState where
  internalValue : Str
  isFocused : Bool
  isTouched : Bool
  errors : List Str

/-- Initial CustomTextInput state. -/
def tfInit : TFState := ⟨[], false, false, []⟩

/-- CustomTextInput `handleChangeText` in uncontrolled mode: store the
text; when already touched, re-validate and report validity through
`onValidate` (the second component; `none` when no report is made). -/
def tfHandleChangeText (validators : List VRule) (st : TFState) (text : Str) :
    TFState × Option Bool :=
  let st1 := { st with internalValue := text }
  if st.isTouched then
    let es := validate validators text
    ({ st1 with errors := es }, some es.isEmpty)
  else (st1, none)

/-- CustomTextInput `handleBlur`: leave focus, mark touched, validate
the current value and report validity. -/
def tfHandleBlur (validators : List VRule) (st : TFState) : TFState × Bool :=
  let es := validate validators st.internalValue
  ({ st with isFocused := false, isTouched := true, errors := es }, es.isEmpty)

/-- Derived flag `hasError = isTouched && errors.length > 0`. -/
def hasError (st : TFState) : Bool := st.isTouched ∧ 0 < st.errors.length

/-- Derived flag
`isSuccess = isTouched && errors.length === 0 && value.trim().length > 0`. -/
def isSuccess (st : TFState) : Bool :=
  st.isTouched ∧ st.errors.isEmpty ∧ 0 < (jsTrim st.internalValue).length

/-- A selected file descriptor of the FilePicker. -/
structure SelectedFile where
  uri : Str
  name : Str
  size : Nat
  mimeType : Option Str
deriving DecidableEq, Repr

/-- FilePicker props fixed for the instance lifetime. -/
structure FPConfig where
  maxFiles : Nat
  maxSizePerFile : Nat
  maxTotalSize : Nat
  allowedTypes : List Str
  required : Bool

/-- Decimal rendering of a hundredth-scaled quantity `q` as JavaScript
prints the number `q / 100` (no trailing zeros, no decimal point for
integers). -/
def decChars (q : Nat) : Str :=
  let ip := q / 100
  let fr := q % 100
  if fr = 0 then natChars ip
  else if fr % 10 = 0 then natChars ip ++ '.' :: natChars (fr / 10)
  else if fr < 10 then natChars ip ++ '.' :: '0' :: natChars fr
  else natChars ip ++ '.' :: natChars fr

/-- FilePicker `formatFileSize`: the power-of-1024 bucket
`Math.floor(Math.log(bytes) / Math.log(1024))` computed exactly as
`Nat.log 1024 bytes`, and `Math.round(bytes / 1024 ^ i * 100) / 100`
computed in exact arithmetic (round half up). -/
def formatFileSize (bytes : Nat) : Str :=
  if bytes = 0 then "0 Bytes".toList
  else
    let i := Nat.log 1024 bytes
    let q := (bytes * 200 + 1024 ^ i) / (2 * 1024 ^ i)
    let unit := ["Bytes".toList, "KB".toList, "MB".toList, "GB".toList].getD i "undefined".toList
    decChars q ++ ' ' :: unit

/-- FilePicker `getFileExtension`: the characters after the last dot,
lower-cased; the unsigned-shift trick of the source makes the result
empty when there is no dot or when the only dot is the first
character. -/
def getFileExtension (filename : Str) : Str :=
  match filename.reverse.findIdx? (fun c => c = '.') with
  | none => []
  | some j =>
    let idx := filename.length - 1 - j
    if idx = 0 then [] else (filename.drop (idx + 1)).map Char.toLower

/-- FilePicker `isFileTypeAllowed`: a `*/*` entry allows everything;
otherwise a truthy mime type is tested for an exact match or a
`base/*` wildcard match, and then a truthy filename is tested for a
`.ext` extension match. -/
def isFileTypeAllowed (cfg : FPConfig) (mimeType : Option Str) (filename : Option Str) : Bool :=
  if cfg.allowedTypes.contains "*/*".toList then true
  else
    let mimeOk : Bool :=
      match mimeType with
      | some mt =>
        ¬mt.isEmpty ∧
          cfg.allowedTypes.any (fun allowed =>
            allowed = mt ∨
              (List.isSuffixOf "/*".toList allowed ∧
                List.isPrefixOf ((jsSplit '/' allowed).headD [] ++ ['/']) mt))
      | none => false
    let extOk : Bool :=
      match filename with
      | some fn =>
        ¬fn.isEmpty ∧
          cfg.allowedTypes.any (fun allowed =>
            allowed.headD ' ' = '.' ∧ allowed.drop 1 = getFileExtension fn)
      | none => false
    mimeOk ∨ extOk

/-- Sum of the file sizes, `files.reduce((sum, f) => sum + f.size, 0)`. -/
def totalSize (fs : List SelectedFile) : Nat := fs.foldl (fun a f => a + f.size) 0

/-- FilePicker `validateFiles`: required check, count bound, first
over-sized file, total-size bound; the empty string means valid. -/
def validateFiles (cfg : FPConfig) (fs : List SelectedFile) : Str :=
  if cfg.required ∧ fs.isEmpty then "At least one file is required".toList
  else if fs.length > cfg.maxFiles then
    "Maximum ".toList ++ natChars cfg.maxFiles ++ " file(s) allowed".toList
  else
    match fs.find? (fun f => f.size > cfg.maxSizePerFile) with
    | some f =>
      f.name ++ " exceeds maximum size of ".toList ++ formatFileSize cfg.maxSizePerFile
    | none =>
      if totalSize fs > cfg.maxTotalSize then
        "Total size ".toList ++ formatFileSize (totalSize fs) ++
          " exceeds maximum of ".toList ++ formatFileSize cfg.maxTotalSize
      else []

/-- Local state of a FilePicker instance. -/
structure FPState where
  files : List SelectedFile
  error : Str
  isTouched : Bool
deriving DecidableEq, Repr

/-- FilePicker mount: `useState<SelectedFile[]>(value)` adopts the
`value` prop as-is and starts with no error and untouched. -/
def fpInit (value : List SelectedFile) : FPState := ⟨value, [], false⟩

/-- One asset returned by the document picker. -/
structure Asset where
  uri : Str
  name : Str
  size : Option Nat
  mimeType : Option Str
deriving DecidableEq, Repr

/-- Outcome of the document-picker invocation. -/
inductive PickResult
  | canceled
  | assets (l : List Asset)

/-- Per-candidate filtering of `handlePickFiles`: the asset survives
when its type is allowed and its size check passes (`asset.size &&
asset.size > maxSizePerFile` skips the size check for an absent or
zero size). -/
def assetAccepted (cfg : FPConfig) (a : Asset) : Bool :=
  let sizeTooBig : Bool :=
    match a.size with
    | some s => s ≠ 0 ∧ s > cfg.maxSizePerFile
    | none => false
  isFileTypeAllowed cfg a.mimeType (some a.name) ∧ ¬sizeTooBig

/-- Conversion of a surviving asset, `size: asset.size || 0`. -/
def toSelectedFile (a : Asset) : SelectedFile := ⟨a.uri, a.name, a.size.getD 0, a.mimeType⟩

/-- FilePicker `handlePickFiles` given the picker outcome: mark
touched; refuse before picking when the list is already full; drop
rejected candidates individually; return unchanged when nothing
survives; otherwise append the survivors, truncate the combined list
with `.slice(0, maxFiles)`, validate the truncated list, store the
validation message, and commit the truncated list only when the
message is empty. -/
def handlePickFiles (cfg : FPConfig) (st : FPState) (res : PickResult) : FPState :=
  let st := { st with isTouched := true }
  if st.files.length ≥ cfg.maxFiles then
    { st with error := "Maximum ".toList ++ natChars cfg.maxFiles ++ " file(s) allowed".toList }
  else
    match res with
    | .canceled => st
    | .assets assets =>
      let newFiles := (assets.filter (assetAccepted cfg)).map toSelectedFile
      if newFiles.isEmpty then st
      else
        let updatedFiles := (st.files ++ newFiles).take cfg.maxFiles
        let validationError := validateFiles cfg updatedFiles
        if validationError.isEmpty then
          { st with files := updatedFiles, error := validationError }
        else { st with error := validationError }

/-- FilePicker `handleRemoveFile`: drop the entry at `index`
(`filter((_, i) => i !== index)`) and re-validate the remainder. -/
def handleRemoveFile (cfg : FPConfig) (st : FPState) (index : Nat) : FPState :=
  let updatedFiles := st.files.eraseIdx index
  { st with files := updatedFiles, error := validateFiles cfg updatedFiles }

/-- FilePicker `handleClearAll`: empty the list and clear the error. -/
def handleClearAll (st : FPState) : FPState := { st with files := [], error := [] }

/-- Easing selection of the CounterTimer (`easingFunctions` maps each
tag to the corresponding reanimated curve; the tag identifies the
curve). -/
inductive EasingKind
  | linear
  | easeInOut
  | easeOut
deriving DecidableEq, Repr

/-- The four CounterTimer states. -/
inductive TimerState
  | idle
  | running
  | paused
  | completed
deriving DecidableEq, Repr

/-- CounterTimer props. -/
structure TimerCfg where
  targetNumber : ℚ
  durationSec : ℚ
  easing : EasingKind

/-- `Math.max(0.1, Math.min(3600, durationSec || 1))`. -/
def validDuration (cfg : TimerCfg) : ℚ :=
  max (1 / 10) (min 3600 (if cfg.durationSec = 0 then 1 else cfg.durationSec))

/-- `Math.max(0, targetNumber || 0)`. -/
def validTarget (cfg : TimerCfg) : ℚ := max 0 cfg.targetNumber

/-- An interpolation attached to the shared progress value by
`withTiming`: it animates from the value `src` the shared value held
when it was attached up to 1, over `durationMs` milliseconds, with the
recorded easing.  `gen` identifies the `withTiming` call: reanimated
runs the completion callback of an animation that is cancelled
(`cancelAnimation`) or replaced (assignment to `progress.value`) with
`finished = false`, which the guard `if (finished)` in the source
ignores, so only the animation currently attached can ever complete
with `finished = true`. -/
structure AnimRec where
  gen : Nat
  src : ℚ
  durationMs : ℚ
  easing : EasingKind
deriving DecidableEq, Repr

/-- CounterTimer component state: React state, the shared progress
value, the attached interpolation if any, the number of times the
one-shot completion notification (`onComplete`) has fired, and a
fresh-generation counter.  The 60 Hz display sampler derives its text
from `progress` and is not part of any claim below. -/
structure TM where
  state : TimerState
  progress : ℚ
  anim : Option AnimRec
  completions : Nat
  nextGen : Nat
deriving DecidableEq, Repr

/-- Initial CounterTimer state. -/
def tmInit : TM := ⟨.idle, 0, none, 0, 0⟩

/-- Events of the CounterTimer: the four controls, the natural
completion of the interpolation of generation `gen` (delivered with
`finished = true` only when that interpolation is still attached), and
the animation driver moving the shared value (`advance`), abstracting
the time-parametrised trajectory. -/
inductive TEv
  | start
  | stop
  | reset
  | restart
  | finish (gen : Nat)
  | advance (v : ℚ)
deriving DecidableEq

/-- CounterTimer `handleStart`: from idle or completed, zero the
progress and attach a fresh full-duration interpolation; from paused,
attach an interpolation from the current progress over
`validDuration * 1000 * (1 - progress)` with the same easing; from
running, do nothing. -/
def handleStart (cfg : TimerCfg) (s : TM) : TM :=
  if s.state = .idle ∨ s.state = .completed then
    { s with state := .running, progress := 0,
             anim := some ⟨s.nextGen, 0, validDuration cfg * 1000, cfg.easing⟩,
             nextGen := s.nextGen + 1 }
  else if s.state = .paused then
    { s with state := .running,
             anim := some ⟨s.nextGen, s.progress,
                           validDuration cfg * 1000 * (1 - s.progress), cfg.easing⟩,
             nextGen := s.nextGen + 1 }
  else s

/-- CounterTimer `handleStop`: only from running, move to paused and
cancel the attached interpolation, freezing the shared value. -/
def handleStop (s : TM) : TM :=
  if s.state = .running then { s with state := .paused, anim := none } else s

/-- CounterTimer `handleReset`: cancel, go idle, zero the progress. -/
def handleReset (s : TM) : TM :=
  { s with state := .idle, anim := none, progress := 0 }

/-- CounterTimer `handleRestart`: cancel unconditionally, go running,
zero the progress, attach a fresh full-duration interpolation. -/
def handleRestart (cfg : TimerCfg) (s : TM) : TM :=
  { s with state := .running, progress := 0,
           anim := some ⟨s.nextGen, 0, validDuration cfg * 1000, cfg.easing⟩,
           nextGen := s.nextGen + 1 }

/-- The interpolation of generation `g` is currently attached. -/
def matchesAnim (s : TM) (g : Nat) : Bool :=
  match s.anim with
  | some a => a.gen = g
  | none => false

/-- One step of the CounterTimer.  A `finish g` event models the
timing driver completing animation `g` with `finished = true`; this
can only happen while `g` is attached, otherwise its callback already
ran with `finished = false` and the event is ignored.  An accepted
finish runs the source callback: state completed and one `onComplete`
firing. -/
def tmStep (cfg : TimerCfg) (s : TM) : TEv → TM
  | .start => handleStart cfg s
  | .stop => handleStop s
  | .reset => handleReset s
  | .restart => handleRestart cfg s
  | .finish g =>
    if matchesAnim s g then
      { s with state := .completed, progress := 1, anim := none,
               completions := s.completions + 1 }
    else s
  | .advance v => if s.anim.isSome then { s with progress := v } else s

/-- Run a list of events. -/
def tmRun (cfg : TimerCfg) (s : TM) (es : List TEv) : TM := es.foldl (tmStep cfg) s

/-- Number of `onComplete` firings caused by finish events of
generation `g` along a trace. -/
def countFires (cfg : TimerCfg) (g : Nat) : TM → List TEv → Nat
  | _, [] => 0
  | s, e :: es =>
    (if e = .finish g ∧ matchesAnim s g then 1 else 0) + countFires cfg g (tmStep cfg s e) es

/-- Generation bookkeeping invariant: every attached animation was
created by a past `withTiming` call, so its generation is below the
fresh counter.  It holds for `tmInit` and is preserved by every
step. -/
def tmWf (s : TM) : Prop := ∀ a, s.anim = some a → a.gen < s.nextGen


/-- A generation is dead when it is in the past and no longer
attached: its interpolation was replaced, cancelled, or already
finished. -/
def genDead (g : Nat) (s : TM) : Prop := g < s.nextGen ∧ matchesAnim s g = false

/-- Total number of `onComplete` firings along a trace. -/
def totalFires (cfg : TimerCfg) : TM → List TEv → Nat
  | _, [] => 0
  | s, e :: es =>
    (match e with
     | .finish g => if matchesAnim s g then 1 else 0
     | _ => 0) + totalFires cfg (tmStep cfg s e) es

/-- The DateField configuration of the bound examples: format
DD/MM/YYYY, minDate 2025-01-01, maxDate 2025-12-31. -/
def cfg2025 : DateFieldCfg := ⟨.ddmmyyyy, false, some ⟨2025, 0, 1⟩, some ⟨2025, 11, 31⟩⟩

/-- FilePicker configuration with the default props:
maxFiles 3, 5 MB per file, 15 MB total, all types allowed. -/
def cfgC1 : FPConfig := ⟨3, 5242880, 15728640, ["*/*".toList], false⟩

/-- Concrete individually-valid candidate assets. -/
def asset1 : Asset := ⟨"uri1".toList, "doc1.pdf".toList, some 100, some "application/pdf".toList⟩

/-- Second candidate. -/
def asset2 : Asset := ⟨"uri2".toList, "doc2.pdf".toList, some 200, some "application/pdf".toList⟩

/-- Third candidate. -/
def asset3 : Asset := ⟨"uri3".toList, "doc3.pdf".toList, some 300, some "application/pdf".toList⟩

/-- Fourth candidate. -/
def asset4 : Asset := ⟨"uri4".toList, "doc4.pdf".toList, some 400, some "application/pdf".toList⟩

/-- CounterTimer props of the examples: target 100, duration 10 s,
linear easing. -/
def tmCfg0 : TimerCfg := ⟨100, 10, .linear⟩

/-- A mid-run CounterTimer state: running at progress one half with the
first full-duration interpolation attached. -/
def tmS0 : TM := ⟨.running, 1/2, some ⟨0, 0, 10000, .linear⟩, 0, 1⟩

/-! Helper lemmas. -/

theorem ne_nil_append_left {α : Type} {a b : List α} (h : a ≠ []) : a ++ b ≠ [] := by
  intro hc
  rw [List.append_eq_nil] at hc
  exact h hc.1

theorem ne_nil_append_right {α : Type} {a b : List α} (h : b ≠ []) : a ++ b ≠ [] := by
  intro hc
  rw [List.append_eq_nil] at hc
  exact h hc.2

theorem validate_foldl (v : Str) (R : List VRule) (acc : List Str) :
    R.foldl (fun acc r => if ruleFails r v then acc ++ [r.message] else acc) acc =
      acc ++ (R.filter (fun r => ruleFails r v)).map VRule.message := by
  induction R generalizing acc with
  | nil => simp
  | cons r R ih =>
    by_cases h : ruleFails r v = true
    · simp [h, ih, List.filter_cons]
    · simp [h, ih, List.filter_cons]

/-! Claim theorems. -/

/-- C9: the claim says every manual text change completes normally and
emits the value-validity pair; in the source `handleTextChange` reads
`validationError` outside the block that declares it, so the call
throws a ReferenceError instead (here at the concrete input
"01/01/2025" typed into a pristine field) and the `onChange` emission
is never reached. -/
theorem C9_handleTextChange_throws :
    (handleTextChange cfg2025 ⟨[], [], false⟩ "01/01/2025".toList).2 =
      Except.error JsError.referenceError := rfl

/-- C8: with value "" and rules [required], `hasError` is false before
the first blur; after blur `hasError` is true and the surfaced message
list is exactly the rule's message; and in every state the derived
flags satisfy `hasError = touched && errors nonempty` and `isSuccess =
touched && errors empty && trimmed value nonempty`. -/
theorem C8_untouched_blur_flags (m : Str) :
    hasError tfInit = false ∧
    hasError (tfHandleBlur [VRule.required m] tfInit).1 = true ∧
    (tfHandleBlur [VRule.required m] tfInit).1.errors = [m] ∧
    (∀ st : TFState, hasError st = true ↔ st.isTouched = true ∧ st.errors ≠ []) ∧
    (∀ st : TFState, isSuccess st = true ↔
      st.isTouched = true ∧ st.errors = [] ∧ jsTrim st.internalValue ≠ []) := by
  refine ⟨rfl, rfl, rfl, ?_, ?_⟩
  · intro st
    simp [hasError, List.length_pos]
  · intro st
    simp [isSuccess, List.isEmpty_iff, List.length_pos]

/-- Witness for C8 at the message "Name is required". -/
theorem C8_witness :
    hasError (tfHandleBlur [VRule.required "Name is required".toList] tfInit).1 = true ∧
    (tfHandleBlur [VRule.required "Name is required".toList] tfInit).1.errors =
      ["Name is required".toList] :=
  ⟨(C8_untouched_blur_flags "Name is required".toList).2.1,
   (C8_untouched_blur_flags "Name is required".toList).2.2.1⟩

/-- C2: for every rule sequence and value, the engine returns exactly
the messages of the failing rules in declaration order (no
short-circuit: the result is the full failing-rule filtrate), and the
result is empty exactly when every rule is satisfied. -/
theorem C2_engine_order_complete (R : List VRule) (v : Str) :
    validate R v = (R.filter (fun r => ruleFails r v)).map VRule.message ∧
    (validate R v = [] ↔ ∀ r ∈ R, ruleFails r v = false) := by
  have h1 : validate R v = (R.filter (fun r => ruleFails r v)).map VRule.message := by
    unfold validate
    rw [validate_foldl]
    simp
  refine ⟨h1, ?_⟩
  rw [h1]
  simp [List.map_eq_nil_iff, List.filter_eq_nil_iff]

/-- Witness for C2 at a concrete rule list and value. -/
theorem C2_witness :
    validate [VRule.required "req".toList, VRule.minLength 3 "short".toList] "".toList =
      (([VRule.required "req".toList, VRule.minLength 3 "short".toList]).filter
        (fun r => ruleFails r "".toList)).map VRule.message ∧
    (validate [VRule.required "req".toList, VRule.minLength 3 "short".toList] "".toList = [] ↔
      ∀ r ∈ [VRule.required "req".toList, VRule.minLength 3 "short".toList],
        ruleFails r "".toList = false) :=
  C2_engine_order_complete
    [VRule.required "req".toList, VRule.minLength 3 "short".toList] "".toList

/-- C10: mounting a FilePicker adopts the `value` prop verbatim with no
error and no validation, even when that list already violates the
count or total-size invariant (the last conjunct shows the adopted
list is one that `validateFiles` would reject). -/
theorem C10_mount_adopts_without_validation (cfg : FPConfig) (v : List SelectedFile)
    (h : cfg.maxFiles < v.length ∨ cfg.maxTotalSize < totalSize v) :
    (fpInit v).files = v ∧ (fpInit v).error = [] ∧ (fpInit v).isTouched = false ∧
      validateFiles cfg v ≠ [] := by
  refine ⟨rfl, rfl, rfl, ?_⟩
  have hvne : v ≠ [] := by
    rintro rfl
    simp [totalSize] at h
  unfold validateFiles
  have h1 : ¬(cfg.required = true ∧ v.isEmpty = true) := by
    rintro ⟨-, h2⟩
    exact hvne (List.isEmpty_iff.mp h2)
  rw [if_neg h1]
  by_cases h2 : v.length > cfg.maxFiles
  · rw [if_pos h2]
    exact ne_nil_append_right (by decide)
  · rw [if_neg h2]
    rcases hf : v.find? (fun f => decide (f.size > cfg.maxSizePerFile)) with _ | f
    · simp only [hf]
      have h3 : totalSize v > cfg.maxTotalSize := by
        rcases h with h | h
        · omega
        · omega
      rw [if_pos h3]
      exact ne_nil_append_left (ne_nil_append_right (by decide))
    · simp only [hf]
      exact ne_nil_append_left (ne_nil_append_right (by decide))

/-- Witness for C10: four one-byte files against the default
three-file limit. -/
theorem C10_witness :
    (fpInit [⟨"u1".toList, "a".toList, 1, none⟩, ⟨"u2".toList, "b".toList, 1, none⟩,
      ⟨"u3".toList, "c".toList, 1, none⟩, ⟨"u4".toList, "d".toList, 1, none⟩]).files =
      [⟨"u1".toList, "a".toList, 1, none⟩, ⟨"u2".toList, "b".toList, 1, none⟩,
        ⟨"u3".toList, "c".toList, 1, none⟩, ⟨"u4".toList, "d".toList, 1, none⟩] ∧
    (fpInit [⟨"u1".toList, "a".toList, 1, none⟩, ⟨"u2".toList, "b".toList, 1, none⟩,
      ⟨"u3".toList, "c".toList, 1, none⟩, ⟨"u4".toList, "d".toList, 1, none⟩]).error = [] ∧
    (fpInit [⟨"u1".toList, "a".toList, 1, none⟩, ⟨"u2".toList, "b".toList, 1, none⟩,
      ⟨"u3".toList, "c".toList, 1, none⟩, ⟨"u4".toList, "d".toList, 1, none⟩]).isTouched = false ∧
    validateFiles cfgC1 [⟨"u1".toList, "a".toList, 1, none⟩, ⟨"u2".toList, "b".toList, 1, none⟩,
      ⟨"u3".toList, "c".toList, 1, none⟩, ⟨"u4".toList, "d".toList, 1, none⟩] ≠ [] :=
  C10_mount_adopts_without_validation cfgC1 _ (by decide)

theorem parseDate_trim_false {fmt : DateFormat} {s : Str} {d : CalDate}
    (h : parseDate fmt s = some d) : (jsTrim s).isEmpty = false := by
  by_cases he : (jsTrim s).isEmpty = true
  · unfold parseDate at h
    rw [if_pos he] at h
    exact absurd h (by simp)
  · simpa using he

/-- C3: `validateDate` checks required, then parseability, then the
lower bound, then the upper bound, and reports only the first failing
check: an unparseable non-empty text always yields the format message
whatever the bounds, and a parsed date below `minDate` always yields
the min message; with bounds 2025-01-01 to 2025-12-31 in DD/MM/YYYY,
"15/13/2025" reports the format error and "01/01/2024" reports the
min-date error, not the format error. -/
theorem C3_validateDate_first_failure :
    (∀ (cfg : DateFieldCfg) (s : Str), (jsTrim s).isEmpty = false →
        parseDate cfg.format s = none →
        validateDate cfg s = "Invalid date format. Use ".toList ++ fmtChars cfg.format) ∧
    (∀ (cfg : DateFieldCfg) (s : Str) (d mn : CalDate),
        parseDate cfg.format s = some d → cfg.minDate = some mn → dateLtB d mn = true →
        validateDate cfg s = "Date must be after ".toList ++ formatDate cfg.format mn) ∧
    validateDate cfg2025 "15/13/2025".toList = "Invalid date format. Use DD/MM/YYYY".toList ∧
    validateDate cfg2025 "01/01/2024".toList = "Date must be after 01/01/2025".toList ∧
    validateDate cfg2025 "01/01/2024".toList ≠ "Invalid date format. Use DD/MM/YYYY".toList := by
  refine ⟨?_, ?_, by decide, by decide, by decide⟩
  · intro cfg s hE hP
    unfold validateDate
    rw [if_neg (by simp [hE]), if_neg (by simp [hE]), hP]
  · intro cfg s d mn hP hmn hlt
    have hE := parseDate_trim_false hP
    unfold validateDate
    rw [if_neg (by simp [hE]), if_neg (by simp [hE]), hP]
    simp only [hmn, hlt, if_true]

/-- Witness for C3: the format-error part at "99/99/9999" and the
min-precedence part at "05/06/2024", both under the 2025 bounds. -/
theorem C3_witness :
    validateDate cfg2025 "99/99/9999".toList =
      "Invalid date format. Use ".toList ++ fmtChars cfg2025.format ∧
    validateDate cfg2025 "05/06/2024".toList =
      "Date must be after ".toList ++ formatDate cfg2025.format ⟨2025, 0, 1⟩ :=
  ⟨C3_validateDate_first_failure.1 cfg2025 "99/99/9999".toList (by decide) (by decide),
   C3_validateDate_first_failure.2.1 cfg2025 "05/06/2024".toList ⟨2024, 5, 5⟩ ⟨2025, 0, 1⟩
     (by decide) (by decide) (by decide)⟩

/-- C6: from running at progress p, `stop` moves to paused, freezes the
progress at p and cancels the interpolation; a subsequent `start`
resumes: running again, progress still p, and a new interpolation from
p over duration times (1 - p) milliseconds with the same easing, which
is strictly shorter than a fresh full-duration run whenever p is
positive. -/
theorem C6_stop_freezes_start_resumes (cfg : TimerCfg) (s : TM) (hrun : s.state = .running) :
    (tmStep cfg s .stop).state = .paused ∧
    (tmStep cfg s .stop).progress = s.progress ∧
    (tmStep cfg s .stop).anim = none ∧
    (tmStep cfg (tmStep cfg s .stop) .start).state = .running ∧
    (tmStep cfg (tmStep cfg s .stop) .start).progress = s.progress ∧
    (tmStep cfg (tmStep cfg s .stop) .start).anim =
      some ⟨(tmStep cfg s .stop).nextGen, s.progress,
            validDuration cfg * 1000 * (1 - s.progress), cfg.easing⟩ ∧
    (0 < s.progress →
      validDuration cfg * 1000 * (1 - s.progress) < validDuration cfg * 1000) := by
  have hstop : tmStep cfg s .stop = { s with state := .paused, anim := none } := by
    simp [tmStep, handleStop, hrun]
  refine ⟨by rw [hstop], by rw [hstop], by rw [hstop], ?_, ?_, ?_, ?_⟩
  · rw [hstop]; simp [tmStep, handleStart]
  · rw [hstop]; simp [tmStep, handleStart]
  · rw [hstop]; simp [tmStep, handleStart]
  · intro hp
    have hD : (0 : ℚ) < validDuration cfg * 1000 := by
      have h1 : (1 / 10 : ℚ) ≤ validDuration cfg := le_max_left _ _
      nlinarith
    nlinarith [mul_pos hD hp]

/-- Witness for C6 at duration 10 s, linear easing, progress one half:
the resumed interpolation runs over the remaining 5000 ms. -/
theorem C6_witness :
    (tmStep tmCfg0 tmS0 .stop).state = .paused ∧
    (tmStep tmCfg0 tmS0 .stop).progress = tmS0.progress ∧
    (tmStep tmCfg0 tmS0 .stop).anim = none ∧
    (tmStep tmCfg0 (tmStep tmCfg0 tmS0 .stop) .start).state = .running ∧
    (tmStep tmCfg0 (tmStep tmCfg0 tmS0 .stop) .start).progress = tmS0.progress ∧
    (tmStep tmCfg0 (tmStep tmCfg0 tmS0 .stop) .start).anim =
      some ⟨(tmStep tmCfg0 tmS0 .stop).nextGen, tmS0.progress,
            validDuration tmCfg0 * 1000 * (1 - tmS0.progress), tmCfg0.easing⟩ ∧
    (0 < tmS0.progress →
      validDuration tmCfg0 * 1000 * (1 - tmS0.progress) < validDuration tmCfg0 * 1000) :=
  C6_stop_freezes_start_resumes tmCfg0 tmS0 rfl

/-- C1 counterexample: with maxFiles 3 and four individually-valid
candidates added to an empty FilePicker, the add is not rejected: the
combined list is truncated to the first three files and committed with
no error, contradicting the claimed CapacityError with message
"Maximum 3 file(s) allowed" and unchanged state. -/
theorem C1_counterexample :
    (∀ a ∈ [asset1, asset2, asset3, asset4], assetAccepted cfgC1 a = true) ∧
    (handlePickFiles cfgC1 (fpInit []) (.assets [asset1, asset2, asset3, asset4])).files =
      [toSelectedFile asset1, toSelectedFile asset2, toSelectedFile asset3] ∧
    (handlePickFiles cfgC1 (fpInit []) (.assets [asset1, asset2, asset3, asset4])).error = [] ∧
    ¬((handlePickFiles cfgC1 (fpInit []) (.assets [asset1, asset2, asset3, asset4])).files =
        (fpInit [] : FPState).files ∧
      (handlePickFiles cfgC1 (fpInit []) (.assets [asset1, asset2, asset3, asset4])).error =
        "Maximum 3 file(s) allowed".toList) := by
  refine ⟨by decide, by decide, by decide, ?_⟩
  rintro ⟨h1, -⟩
  exact absurd h1 (by decide)

/-- C1 amended: from an empty FilePicker with maxFiles 3, adding four
candidates that all pass per-candidate filtering, each within the
per-file limit and with the first three within the total limit,
commits the first three files (the combined list is truncated before
aggregate validation) and leaves no error. -/
theorem C1_amended_truncates_and_commits (cfg : FPConfig) (st : FPState) (cands : List Asset)
    (hmax : cfg.maxFiles = 3) (hreq : cfg.required = false) (hst : st.files = [])
    (hlen : cands.length = 4)
    (hacc : ∀ a ∈ cands, assetAccepted cfg a = true)
    (hsz : ∀ a ∈ cands, (toSelectedFile a).size ≤ cfg.maxSizePerFile)
    (htot : totalSize ((cands.map toSelectedFile).take 3) ≤ cfg.maxTotalSize) :
    (handlePickFiles cfg st (.assets cands)).files = (cands.map toSelectedFile).take 3 ∧
    (handlePickFiles cfg st (.assets cands)).error = [] := by
  have hfilter : cands.filter (assetAccepted cfg) = cands := List.filter_eq_self.mpr hacc
  have len_take : ((cands.map toSelectedFile).take 3).length = 3 := by
    simp [List.length_take, hlen]
  have hfind : ((cands.map toSelectedFile).take 3).find?
      (fun f => f.size > cfg.maxSizePerFile) = none := by
    rw [List.find?_eq_none]
    intro f hf
    have hf2 : f ∈ cands.map toSelectedFile := List.take_subset _ _ hf
    obtain ⟨a, ha, rfl⟩ := List.mem_map.mp hf2
    simp only [decide_eq_true_eq, not_lt]
    exact hsz a ha
  have hval : validateFiles cfg ((cands.map toSelectedFile).take 3) = [] := by
    unfold validateFiles
    rw [if_neg (by simp [hreq])]
    rw [if_neg (by rw [len_take, hmax]; omega)]
    simp only [hfind]
    rw [if_neg (by omega)]
  have hne : ((cands.map toSelectedFile).isEmpty) = false := by
    cases cands with
    | nil => simp at hlen
    | cons a cs => rfl
  unfold handlePickFiles
  simp only [hst, hfilter, List.length_nil, List.nil_append, hmax]
  rw [if_neg (by omega)]
  simp only [hne, Bool.false_eq_true, if_false, hval, List.isEmpty_nil, if_true]
  simp

/-- Witness for C1 amended at the default configuration and the four
concrete candidates. -/
theorem C1_witness :
    (handlePickFiles cfgC1 (fpInit []) (.assets [asset1, asset2, asset3, asset4])).files =
      (([asset1, asset2, asset3, asset4]).map toSelectedFile).take 3 ∧
    (handlePickFiles cfgC1 (fpInit []) (.assets [asset1, asset2, asset3, asset4])).error = [] :=
  C1_amended_truncates_and_commits cfgC1 (fpInit []) [asset1, asset2, asset3, asset4]
    (by decide) (by decide) (by decide) (by decide) (by decide) (by decide) (by decide)



theorem step_start_fresh {cfg : TimerCfg} {s : TM}
    (h : s.state = .idle ∨ s.state = .completed) :
    tmStep cfg s .start =
      { s with state := .running, progress := 0,
               anim := some ⟨s.nextGen, 0, validDuration cfg * 1000, cfg.easing⟩,
               nextGen := s.nextGen + 1 } := by
  simp only [tmStep, handleStart]
  rw [if_pos h]

theorem step_start_paused {cfg : TimerCfg} {s : TM} (h : s.state = .paused) :
    tmStep cfg s .start =
      { s with state := .running,
               anim := some ⟨s.nextGen, s.progress,
                             validDuration cfg * 1000 * (1 - s.progress), cfg.easing⟩,
               nextGen := s.nextGen + 1 } := by
  simp only [tmStep, handleStart]
  rw [if_neg (by simp [h]), if_pos h]

theorem step_start_running {cfg : TimerCfg} {s : TM} (h : s.state = .running) :
    tmStep cfg s .start = s := by
  simp only [tmStep, handleStart]
  rw [if_neg (by simp [h]), if_neg (by simp [h])]

theorem step_stop_running {cfg : TimerCfg} {s : TM} (h : s.state = .running) :
    tmStep cfg s .stop = { s with state := .paused, anim := none } := by
  simp only [tmStep, handleStop]
  rw [if_pos h]

theorem step_stop_other {cfg : TimerCfg} {s : TM} (h : ¬s.state = .running) :
    tmStep cfg s .stop = s := by
  simp only [tmStep, handleStop]
  rw [if_neg h]

theorem step_reset {cfg : TimerCfg} {s : TM} :
    tmStep cfg s .reset = { s with state := .idle, anim := none, progress := 0 } := rfl

theorem step_restart {cfg : TimerCfg} {s : TM} :
    tmStep cfg s .restart =
      { s with state := .running, progress := 0,
               anim := some ⟨s.nextGen, 0, validDuration cfg * 1000, cfg.easing⟩,
               nextGen := s.nextGen + 1 } := rfl

theorem finish_step_eq {cfg : TimerCfg} {s : TM} {g : Nat} (hm : matchesAnim s g = true) :
    tmStep cfg s (.finish g) =
      { s with state := .completed, progress := 1, anim := none,
               completions := s.completions + 1 } := by
  simp only [tmStep]
  rw [if_pos hm]

theorem finish_step_ne {cfg : TimerCfg} {s : TM} {g : Nat} (hm : ¬matchesAnim s g = true) :
    tmStep cfg s (.finish g) = s := by
  simp only [tmStep]
  rw [if_neg hm]

theorem step_advance_some {cfg : TimerCfg} {s : TM} {v : ℚ} (h : s.anim.isSome = true) :
    tmStep cfg s (.advance v) = { s with progress := v } := by
  simp only [tmStep]
  rw [if_pos h]

theorem step_advance_none {cfg : TimerCfg} {s : TM} {v : ℚ} (h : ¬s.anim.isSome = true) :
    tmStep cfg s (.advance v) = s := by
  simp only [tmStep]
  rw [if_neg h]

theorem tmStep_nextGen_le (cfg : TimerCfg) (s : TM) (e : TEv) :
    s.nextGen ≤ (tmStep cfg s e).nextGen := by
  cases e with
  | start =>
    by_cases h1 : s.state = .idle ∨ s.state = .completed
    · rw [step_start_fresh h1]
      exact Nat.le_succ _
    · by_cases h2 : s.state = .paused
      · rw [step_start_paused h2]
        exact Nat.le_succ _
      · have h3 : s.state = .running := by
          cases hs : s.state <;> simp_all
        rw [step_start_running h3]
  | stop =>
    by_cases h1 : s.state = .running
    · rw [step_stop_running h1]
    · rw [step_stop_other h1]
  | reset => rw [step_reset]
  | restart =>
    rw [step_restart]
    exact Nat.le_succ _
  | finish g =>
    by_cases h1 : matchesAnim s g = true
    · rw [finish_step_eq h1]
    · rw [finish_step_ne h1]
  | advance v =>
    by_cases h1 : s.anim.isSome = true
    · rw [step_advance_some h1]
    · rw [step_advance_none h1]

theorem tmWf_step (cfg : TimerCfg) {s : TM} (h : tmWf s) (e : TEv) : tmWf (tmStep cfg s e) := by
  cases e with
  | start =>
    by_cases h1 : s.state = .idle ∨ s.state = .completed
    · rw [step_start_fresh h1]
      intro a ha
      injection ha with ha2
      subst ha2
      exact Nat.lt_succ_self _
    · by_cases h2 : s.state = .paused
      · rw [step_start_paused h2]
        intro a ha
        injection ha with ha2
        subst ha2
        exact Nat.lt_succ_self _
      · have h3 : s.state = .running := by
          cases hs : s.state <;> simp_all
        rw [step_start_running h3]
        exact h
  | stop =>
    by_cases h1 : s.state = .running
    · rw [step_stop_running h1]
      intro a ha
      cases ha
    · rw [step_stop_other h1]
      exact h
  | reset =>
    rw [step_reset]
    intro a ha
    cases ha
  | restart =>
    rw [step_restart]
    intro a ha
    injection ha with ha2
    subst ha2
    exact Nat.lt_succ_self _
  | finish g =>
    by_cases h1 : matchesAnim s g = true
    · rw [finish_step_eq h1]
      intro a ha
      cases ha
    · rw [finish_step_ne h1]
      exact h
  | advance v =>
    by_cases h1 : s.anim.isSome = true
    · rw [step_advance_some h1]
      exact h
    · rw [step_advance_none h1]
      exact h

theorem genDead_step (cfg : TimerCfg) {g : Nat} {s : TM} (hd : genDead g s) (e : TEv) :
    genDead g (tmStep cfg s e) := by
  obtain ⟨hlt, hm⟩ := hd
  refine ⟨lt_of_lt_of_le hlt (tmStep_nextGen_le cfg s e), ?_⟩
  cases e with
  | start =>
    by_cases h1 : s.state = .idle ∨ s.state = .completed
    · rw [step_start_fresh h1]
      simp only [matchesAnim, decide_eq_false_iff_not]
      omega
    · by_cases h2 : s.state = .paused
      · rw [step_start_paused h2]
        simp only [matchesAnim, decide_eq_false_iff_not]
        omega
      · have h3 : s.state = .running := by
          cases hs : s.state <;> simp_all
        rw [step_start_running h3]
        exact hm
  | stop =>
    by_cases h1 : s.state = .running
    · rw [step_stop_running h1]
      rfl
    · rw [step_stop_other h1]
      exact hm
  | reset => rw [step_reset]; rfl
  | restart =>
    rw [step_restart]
    simp only [matchesAnim, decide_eq_false_iff_not]
    omega
  | finish g2 =>
    by_cases h1 : matchesAnim s g2 = true
    · rw [finish_step_eq h1]
      rfl
    · rw [finish_step_ne h1]
      exact hm
  | advance v =>
    by_cases h1 : s.anim.isSome = true
    · rw [step_advance_some h1]
      exact hm
    · rw [step_advance_none h1]
      exact hm

theorem genDead_countFires (cfg : TimerCfg) {g : Nat} {s : TM} (hd : genDead g s)
    (es : List TEv) : countFires cfg g s es = 0 := by
  induction es generalizing s with
  | nil => rfl
  | cons e es ih =>
    have hcf : countFires cfg g s (e :: es) =
        (if e = TEv.finish g ∧ matchesAnim s g = true then 1 else 0) +
          countFires cfg g (tmStep cfg s e) es := rfl
    rw [hcf]
    have h0 : ¬(e = TEv.finish g ∧ matchesAnim s g = true) := by
      rintro ⟨-, hm2⟩
      rw [hd.2] at hm2
      exact Bool.false_ne_true hm2
    rw [if_neg h0, ih (genDead_step cfg hd e)]

theorem matches_lt_nextGen {s : TM} {g : Nat} (hwf : tmWf s)
    (hm : matchesAnim s g = true) : g < s.nextGen := by
  unfold matchesAnim at hm
  cases ha : s.anim with
  | none => rw [ha] at hm; cases hm
  | some a =>
    rw [ha] at hm
    have hg : a.gen = g := by simpa using hm
    rw [← hg]
    exact hwf a ha

theorem fires_le_one (cfg : TimerCfg) {g : Nat} {s : TM} (hwf : tmWf s) (es : List TEv) :
    countFires cfg g s es ≤ 1 := by
  induction es generalizing s with
  | nil => simp [countFires]
  | cons e es ih =>
    have hcf : countFires cfg g s (e :: es) =
        (if e = TEv.finish g ∧ matchesAnim s g = true then 1 else 0) +
          countFires cfg g (tmStep cfg s e) es := rfl
    rw [hcf]
    by_cases hc : e = TEv.finish g ∧ matchesAnim s g = true
    · rw [if_pos hc]
      obtain ⟨he, hm⟩ := hc
      subst he
      have hglt : g < s.nextGen := matches_lt_nextGen hwf hm
      have hdead : genDead g (tmStep cfg s (.finish g)) := by
        rw [finish_step_eq hm]
        exact ⟨hglt, rfl⟩
      rw [genDead_countFires cfg hdead es]
    · rw [if_neg hc]
      simpa using ih (tmWf_step cfg hwf e)

theorem step_completions_other (cfg : TimerCfg) (s : TM) (e : TEv)
    (h : ∀ g, e ≠ TEv.finish g) : (tmStep cfg s e).completions = s.completions := by
  cases e with
  | start =>
    by_cases h1 : s.state = .idle ∨ s.state = .completed
    · rw [step_start_fresh h1]
    · by_cases h2 : s.state = .paused
      · rw [step_start_paused h2]
      · have h3 : s.state = .running := by
          cases hs : s.state <;> simp_all
        rw [step_start_running h3]
  | stop =>
    by_cases h1 : s.state = .running
    · rw [step_stop_running h1]
    · rw [step_stop_other h1]
  | reset => rw [step_reset]
  | restart => rw [step_restart]
  | finish g => exact absurd rfl (h g)
  | advance v =>
    by_cases h1 : s.anim.isSome = true
    · rw [step_advance_some h1]
    · rw [step_advance_none h1]

theorem run_completions (cfg : TimerCfg) (s : TM) (es : List TEv) :
    (tmRun cfg s es).completions = s.completions + totalFires cfg s es := by
  induction es generalizing s with
  | nil => simp [tmRun, totalFires]
  | cons e es ih =>
    have hrun : tmRun cfg s (e :: es) = tmRun cfg (tmStep cfg s e) es := rfl
    rw [hrun, ih]
    cases e with
    | finish g =>
      have htf : totalFires cfg s (.finish g :: es) =
          (if matchesAnim s g = true then 1 else 0) +
            totalFires cfg (tmStep cfg s (.finish g)) es := rfl
      rw [htf]
      by_cases h1 : matchesAnim s g = true
      · rw [if_pos h1]
        rw [finish_step_eq h1]
        dsimp only
        omega
      · rw [if_neg h1]
        rw [finish_step_ne h1]
        omega
    | start =>
      have htf : totalFires cfg s (.start :: es) =
          0 + totalFires cfg (tmStep cfg s .start) es := rfl
      rw [htf, step_completions_other cfg s .start (by intro g h; cases h)]
      omega
    | stop =>
      have htf : totalFires cfg s (.stop :: es) =
          0 + totalFires cfg (tmStep cfg s .stop) es := rfl
      rw [htf, step_completions_other cfg s .stop (by intro g h; cases h)]
      omega
    | reset =>
      have htf : totalFires cfg s (.reset :: es) =
          0 + totalFires cfg (tmStep cfg s .reset) es := rfl
      rw [htf, step_completions_other cfg s .reset (by intro g h; cases h)]
      omega
    | restart =>
      have htf : totalFires cfg s (.restart :: es) =
          0 + totalFires cfg (tmStep cfg s .restart) es := rfl
      rw [htf, step_completions_other cfg s .restart (by intro g h; cases h)]
      omega
    | advance v =>
      have htf : totalFires cfg s (.advance v :: es) =
          0 + totalFires cfg (tmStep cfg s (.advance v)) es := rfl
      rw [htf, step_completions_other cfg s (.advance v) (by intro g h; cases h)]
      omega

/-- C7: along every event trace the completion notification fires
exactly as often as an attached interpolation reaches 1 (the
completions counter equals the accepted finishes); any single
generation completes at most once; and an attached generation that
reaches 1 fires the one-shot notification exactly once and moves the
state to completed, while after a restart cancels the attached
generation no finish event of that generation can ever fire again. -/
theorem C7_completion_exactly_once (cfg : TimerCfg) (s : TM) (g : Nat) (es : List TEv)
    (hwf : tmWf s) :
    ((tmRun cfg s es).completions = s.completions + totalFires cfg s es) ∧
    countFires cfg g s es ≤ 1 ∧
    (matchesAnim s g = true →
      (tmStep cfg s (.finish g)).completions = s.completions + 1 ∧
      (tmStep cfg s (.finish g)).state = .completed ∧
      countFires cfg g (tmStep cfg s .restart) es = 0) := by
  refine ⟨run_completions cfg s es, fires_le_one cfg hwf es, ?_⟩
  intro hm
  have hglt : g < s.nextGen := matches_lt_nextGen hwf hm
  refine ⟨by rw [finish_step_eq hm], by rw [finish_step_eq hm], ?_⟩
  apply genDead_countFires
  rw [step_restart]
  constructor
  · exact Nat.lt_succ_of_lt hglt
  · simp only [matchesAnim, decide_eq_false_iff_not]
    omega

/-- Witness for C7 at the mid-run state with generation 0 attached and
a trace of two finish events for that generation. -/
theorem C7_witness :
    ((tmRun tmCfg0 tmS0 [.finish 0, .finish 0]).completions =
      tmS0.completions + totalFires tmCfg0 tmS0 [.finish 0, .finish 0]) ∧
    countFires tmCfg0 0 tmS0 [.finish 0, .finish 0] ≤ 1 ∧
    (matchesAnim tmS0 0 = true →
      (tmStep tmCfg0 tmS0 (.finish 0)).completions = tmS0.completions + 1 ∧
      (tmStep tmCfg0 tmS0 (.finish 0)).state = .completed ∧
      countFires tmCfg0 0 (tmStep tmCfg0 tmS0 .restart) [.finish 0, .finish 0] = 0) :=
  C7_completion_exactly_once tmCfg0 tmS0 0 [.finish 0, .finish 0]
    (by
      intro a ha
      simp only [tmS0, Option.some.injEq] at ha
      subst ha
      decide)

theorem daysInMonth_pos (y : Int) (m : Nat) : 0 < daysInMonth y m := by
  unfold daysInMonth
  split <;> first | omega | (split <;> omega)

theorem nextMonth_lt12 {y : Int} {m : Nat} (h : m < 12) : (nextMonth y m).2 < 12 := by
  unfold nextMonth
  by_cases h1 : m = 11
  · simp [h1]
  · simp [h1]
    omega

theorem prevMonth_lt12 {y : Int} {m : Nat} (h : m < 12) : (prevMonth y m).2 < 12 := by
  cases m with
  | zero => simp [prevMonth]
  | succ n =>
    simp only [prevMonth]
    omega

theorem normUp_valid : ∀ (f : Nat) (y : Int) (m : Nat) (d : Int), m < 12 → 1 ≤ d →
    d ≤ (f : Int) →
    (normUp f y m d).2.1 < 12 ∧ 1 ≤ (normUp f y m d).2.2 ∧
      (normUp f y m d).2.2 ≤ (daysInMonth (normUp f y m d).1 (normUp f y m d).2.1 : Int) := by
  intro f
  induction f with
  | zero =>
    intro y m d hm h1 hf
    simp only [Nat.cast_zero] at hf
    omega
  | succ f ih =>
    intro y m d hm h1 hf
    simp only [normUp]
    by_cases hlt : (daysInMonth y m : Int) < d
    · rw [if_pos hlt]
      have hpos := daysInMonth_pos y m
      refine ih (nextMonth y m).1 (nextMonth y m).2 (d - daysInMonth y m)
        (nextMonth_lt12 hm) (by omega) (by push_cast at hf ⊢; omega)
    · rw [if_neg hlt]
      dsimp only
      exact ⟨hm, h1, by omega⟩

theorem normDown_valid : ∀ (f : Nat) (y : Int) (m : Nat) (d : Int), m < 12 → d ≤ 0 →
    1 - d ≤ (f : Int) →
    (normDown f y m d).2.1 < 12 ∧ 1 ≤ (normDown f y m d).2.2 ∧
      (normDown f y m d).2.2 ≤ (daysInMonth (normDown f y m d).1 (normDown f y m d).2.1 : Int) := by
  intro f
  induction f with
  | zero =>
    intro y m d hm h0 hf
    simp only [Nat.cast_zero] at hf
    omega
  | succ f ih =>
    intro y m d hm h0 hf
    simp only [normDown]
    have hpos := daysInMonth_pos (prevMonth y m).1 (prevMonth y m).2
    by_cases h2 : d + (daysInMonth (prevMonth y m).1 (prevMonth y m).2 : Int) < 1
    · rw [if_pos h2]
      refine ih (prevMonth y m).1 (prevMonth y m).2 _
        (prevMonth_lt12 hm) (by omega) (by push_cast at hf ⊢; omega)
    · rw [if_neg h2]
      dsimp only
      exact ⟨prevMonth_lt12 hm, by omega, by omega⟩

theorem jsNewDate_valid (year month day : Int) : validCalDate (jsNewDate year month day) := by
  unfold jsNewDate validCalDate
  dsimp only
  have hmod1 : 0 ≤ month.emod 12 := Int.emod_nonneg month (by omega)
  have hmod2 : month.emod 12 < 12 := Int.emod_lt_of_pos month (by omega)
  have hmn : (month.emod 12).toNat < 12 := by omega
  by_cases hday : day < 1
  · rw [if_pos hday]
    have hv := normDown_valid (1 - day).toNat
      ((if 0 ≤ year ∧ year ≤ 99 then year + 1900 else year) + month.fdiv 12)
      ((month.emod 12).toNat) day hmn (by omega) (by omega)
    obtain ⟨h1, h2, h3⟩ := hv
    refine ⟨h1, by omega, by omega⟩
  · rw [if_neg hday]
    have hv := normUp_valid day.toNat
      ((if 0 ≤ year ∧ year ≤ 99 then year + 1900 else year) + month.fdiv 12)
      ((month.emod 12).toNat) day hmn (by omega) (by omega)
    obtain ⟨h1, h2, h3⟩ := hv
    refine ⟨h1, by omega, by omega⟩

theorem parseDate_sound {fmt : DateFormat} {s : Str} {dt : CalDate}
    (h : parseDate fmt s = some dt) : validCalDate dt := by
  cases fmt
  all_goals
    unfold parseDate at h
    split at h
    any_goals exact Option.noConfusion h
    dsimp only at h
    split at h
    any_goals exact Option.noConfusion h
    split at h
    any_goals exact Option.noConfusion h
    split at h
    any_goals exact Option.noConfusion h
    injection h with h2
    subst h2
    exact jsNewDate_valid _ _ _

/-- C5 counterexample: "12x" is a non-numeric component, yet parse does
not return null on it: parseInt reads the leading digits and ignores
the trailing characters, so "12x/02/2024" parses as 12 Feb 2024. -/
theorem C5_counterexample :
    ¬(parseDate .ddmmyyyy "12x/02/2024".toList = none) ∧
    parseDate .ddmmyyyy "12x/02/2024".toList = some ⟨2024, 1, 12⟩ := by
  refine ⟨?_, by decide⟩
  intro hc
  exact absurd hc (by decide)

/-- C5 amended: parse only ever returns a real calendar date whose
components survived the exact-match verification, and returns null on
a roll-over mismatch (31/02/2024), on a wrong separator count and on a
component with no leading digits; a component with trailing non-digit
characters after leading digits is however accepted with the trailing
characters ignored. -/
theorem C5_amended_parse_sound :
    (∀ (fmt : DateFormat) (s : Str) (dt : CalDate),
        parseDate fmt s = some dt → validCalDate dt) ∧
    parseDate .ddmmyyyy "31/02/2024".toList = none ∧
    parseDate .ddmmyyyy "31/2/2024/5".toList = none ∧
    parseDate .ddmmyyyy "aa/02/2024".toList = none :=
  ⟨fun _ _ _ h => parseDate_sound h, by decide, by decide, by decide⟩

/-- Witness for C5: the soundness part applied at the concrete parse of
the 2024 leap day. -/
theorem C5_witness : validCalDate ⟨2024, 1, 29⟩ :=
  C5_amended_parse_sound.1 .ddmmyyyy "29/02/2024".toList ⟨2024, 1, 29⟩ (by decide)

/-- C4 counterexample: 1 January of year 50 is a valid calendar date,
but the round-trip fails in DD/MM/YYYY: the formatted text "01/01/50"
is re-parsed through new Date(50, 0, 1), whose two-digit-year rule
turns it into the year 1950, the verification rejects the mismatch,
and parse returns null instead of the original date. -/
theorem C4_roundtrip_counterexample :
    validCalDate ⟨50, 0, 1⟩ ∧
    parseDate .ddmmyyyy (formatDate .ddmmyyyy ⟨50, 0, 1⟩) ≠ some ⟨50, 0, 1⟩ := by
  refine ⟨by decide, ?_⟩
  intro hc
  exact absurd hc (by decide)

theorem digitChar_toNat {d : Nat} (h : d < 10) : (Nat.digitChar d).toNat = 48 + d := by
  interval_cases d <;> rfl

theorem digitChar_digit {d : Nat} (h : d < 10) : isDigitCh (Nat.digitChar d) = true := by
  interval_cases d <;> rfl

theorem digitsRevChars_eq : ∀ (f n : Nat), n ≤ f →
    digitsRevChars f n = (Nat.digits 10 n).map Nat.digitChar := by
  intro f
  induction f with
  | zero =>
    intro n hn
    interval_cases n
    simp [digitsRevChars]
  | succ f ih =>
    intro n hn
    cases n with
    | zero => simp [digitsRevChars]
    | succ k =>
      rw [Nat.digits_def' (by norm_num : (1 : Nat) < 10) (Nat.succ_pos k)]
      simp only [digitsRevChars, List.map_cons]
      rw [ih ((k + 1) / 10) (by
        have := Nat.div_lt_self (Nat.succ_pos k) (by norm_num : 1 < 10)
        omega)]

theorem natChars_all_digit (n : Nat) : ∀ c ∈ natChars n, isDigitCh c = true := by
  intro c hc
  unfold natChars at hc
  by_cases h0 : n = 0
  · rw [if_pos h0] at hc
    simp only [List.mem_singleton] at hc
    subst hc
    decide
  · rw [if_neg h0, digitsRevChars_eq n n (le_refl n)] at hc
    rw [List.mem_reverse, List.mem_map] at hc
    obtain ⟨d, hd, rfl⟩ := hc
    exact digitChar_digit (Nat.digits_lt_base (by norm_num) hd)

theorem natChars_ne_nil (n : Nat) : natChars n ≠ [] := by
  unfold natChars
  by_cases h0 : n = 0
  · rw [if_pos h0]
    simp
  · rw [if_neg h0, digitsRevChars_eq n n (le_refl n)]
    simp [Nat.digits_ne_nil_iff_ne_zero, h0]

theorem decodeDigits_append_one (l : Str) (c : Char) :
    decodeDigits (l ++ [c]) = decodeDigits l * 10 + (c.toNat - 48) := by
  unfold decodeDigits
  rw [List.foldl_append]
  rfl

theorem decode_map_rev (l : List Nat) (h : ∀ x ∈ l, x < 10) :
    decodeDigits ((l.map Nat.digitChar).reverse) = Nat.ofDigits 10 l := by
  induction l with
  | nil => rfl
  | cons a l ih =>
    simp only [List.map_cons, List.reverse_cons]
    rw [decodeDigits_append_one, ih (fun x hx => h x (List.mem_cons_of_mem _ hx)),
      digitChar_toNat (h a (List.mem_cons_self _ _)), Nat.ofDigits_cons]
    omega

theorem natChars_decode (n : Nat) : decodeDigits (natChars n) = n := by
  unfold natChars
  by_cases h0 : n = 0
  · rw [if_pos h0, h0]
    rfl
  · rw [if_neg h0, digitsRevChars_eq n n (le_refl n),
      decode_map_rev _ (fun x hx => Nat.digits_lt_base (by norm_num) hx),
      Nat.ofDigits_digits]

theorem decode_cons_zero (l : Str) : decodeDigits ('0' :: l) = decodeDigits l := rfl

theorem decode_pad2 (l : Str) : decodeDigits (pad2 l) = decodeDigits l := by
  unfold pad2
  rcases h : 2 - l.length with _ | k
  · rfl
  · rcases k with _ | k2
    · rfl
    · rcases k2 with _ | k3
      · rfl
      · omega

theorem pad2_all_digit {l : Str} (h : ∀ c ∈ l, isDigitCh c = true) :
    ∀ c ∈ pad2 l, isDigitCh c = true := by
  intro c hc
  unfold pad2 at hc
  rw [List.mem_append] at hc
  rcases hc with hc | hc
  · rw [List.eq_of_mem_replicate hc]
    decide
  · exact h c hc

theorem pad2_ne_nil {l : Str} (h : l ≠ []) : pad2 l ≠ [] := ne_nil_append_right h

theorem digit_facts {c : Char} (h : isDigitCh c = true) :
    isJsWs c = false ∧ c ≠ '-' ∧ c ≠ '+' ∧ c ≠ '/' := by
  refine ⟨?_, ?_, ?_, ?_⟩
  · simp only [isJsWs, decide_eq_false_iff_not]
    push_neg
    refine ⟨?_, ?_, ?_, ?_⟩ <;> rintro rfl <;> exact absurd h (by decide)
  · rintro rfl; exact absurd h (by decide)
  · rintro rfl; exact absurd h (by decide)
  · rintro rfl; exact absurd h (by decide)

theorem dropWhile_ws_digits {l : Str} (h : ∀ c ∈ l, isDigitCh c = true) :
    l.dropWhile isJsWs = l := by
  cases l with
  | nil => rfl
  | cons c t =>
    rw [List.dropWhile_cons, (digit_facts (h c (List.mem_cons_self _ _))).1]
    simp

theorem takeWhile_digits {l : Str} (h : ∀ c ∈ l, isDigitCh c = true) :
    l.takeWhile isDigitCh = l := by
  induction l with
  | nil => rfl
  | cons c t ih =>
    rw [List.takeWhile_cons, h c (List.mem_cons_self _ _)]
    simp [ih (fun x hx => h x (List.mem_cons_of_mem _ hx))]

theorem parseIntJs_digits {l : Str} (hne : l ≠ []) (h : ∀ c ∈ l, isDigitCh c = true) :
    parseIntJs l = some ((decodeDigits l : Nat) : Int) := by
  unfold parseIntJs
  dsimp only
  rw [dropWhile_ws_digits h]
  cases l with
  | nil => exact absurd rfl hne
  | cons c t =>
    have hc := h c (List.mem_cons_self _ _)
    have hfacts := digit_facts hc
    split
    next heq =>
      exfalso
      rw [List.cons.injEq] at heq
      exact hfacts.2.1 heq.1
    next heq =>
      exfalso
      rw [List.cons.injEq] at heq
      exact hfacts.2.2.1 heq.1
    next =>
      rw [takeWhile_digits h]
      simp

theorem parseInt_pad2_natChars (n : Nat) :
    parseIntJs (pad2 (natChars n)) = some (n : Int) := by
  rw [parseIntJs_digits (pad2_ne_nil (natChars_ne_nil n)) (pad2_all_digit (natChars_all_digit n)),
    decode_pad2, natChars_decode]

theorem parseInt_natChars (n : Nat) : parseIntJs (natChars n) = some (n : Int) := by
  rw [parseIntJs_digits (natChars_ne_nil n) (natChars_all_digit n), natChars_decode]

theorem jsSplit_ne_nil (sep : Char) (l : Str) : jsSplit sep l ≠ [] := by
  induction l with
  | nil => simp [jsSplit]
  | cons c t ih =>
    simp only [jsSplit]
    rcases hsp : jsSplit sep t with _ | ⟨p, ps⟩
    · exact absurd hsp ih
    · dsimp only
      split <;> simp

theorem jsSplit_sep_free {sep : Char} {l : Str} (h : ∀ c ∈ l, c ≠ sep) :
    jsSplit sep l = [l] := by
  induction l with
  | nil => rfl
  | cons c t ih =>
    simp only [jsSplit]
    rw [ih (fun x hx => h x (List.mem_cons_of_mem _ hx))]
    dsimp only
    rw [if_neg (h c (List.mem_cons_self _ _))]

theorem jsSplit_append {sep : Char} {a b : Str} (ha : ∀ c ∈ a, c ≠ sep) :
    jsSplit sep (a ++ sep :: b) = a :: jsSplit sep b := by
  induction a with
  | nil =>
    simp only [List.nil_append, jsSplit]
    rcases hsp : jsSplit sep b with _ | ⟨p, ps⟩
    · exact absurd hsp (jsSplit_ne_nil sep b)
    · simp
  | cons x xs ih =>
    simp only [List.cons_append, jsSplit, List.append_eq]
    rw [ih (fun c hc => ha c (List.mem_cons_of_mem _ hc))]
    dsimp only
    rw [if_neg (ha x (List.mem_cons_self _ _))]

theorem jsSplit_three {sep : Char} {a b c : Str} (ha : ∀ x ∈ a, x ≠ sep)
    (hb : ∀ x ∈ b, x ≠ sep) (hc : ∀ x ∈ c, x ≠ sep) :
    jsSplit sep (a ++ sep :: (b ++ sep :: c)) = [a, b, c] := by
  rw [jsSplit_append ha, jsSplit_append hb, jsSplit_sep_free hc]

theorem dropWhile_all_false {p : Char → Bool} {l : Str} (h : ∀ c ∈ l, p c = false) :
    l.dropWhile p = l := by
  cases l with
  | nil => rfl
  | cons c t =>
    rw [List.dropWhile_cons, h c (List.mem_cons_self _ _)]
    simp

theorem jsTrim_no_ws {l : Str} (h : ∀ c ∈ l, isJsWs c = false) : jsTrim l = l := by
  unfold jsTrim
  rw [dropWhile_all_false h,
    dropWhile_all_false (fun c hc => h c (List.mem_reverse.mp hc)), List.reverse_reverse]

theorem normUp_stay {f : Nat} {y : Int} {m : Nat} {d : Int}
    (h : ¬((daysInMonth y m : Int) < d)) : normUp f y m d = (y, m, d) := by
  cases f with
  | zero => rfl
  | succ f => simp [normUp, h]

theorem jsNewDate_id {y : Int} {mo da : Nat} (hm : mo < 12) (h1 : 1 ≤ da)
    (h2 : da ≤ daysInMonth y mo) (hy : 100 ≤ y) :
    jsNewDate y (mo : Int) (da : Int) = ⟨y, mo, da⟩ := by
  unfold jsNewDate
  dsimp only
  rw [if_neg (by omega : ¬(0 ≤ y ∧ y ≤ 99))]
  have hfdiv : (mo : Int).fdiv 12 = 0 := by
    rw [Int.fdiv_eq_ediv _ (by norm_num)]
    exact Int.ediv_eq_zero_of_lt (by omega) (by omega)
  have hemod : (mo : Int).emod 12 = (mo : Int) := by
    have hrfl : (mo : Int).emod 12 = (mo : Int) % 12 := rfl
    rw [hrfl]
    exact Int.emod_eq_of_lt (by omega) (by omega)
  rw [hfdiv, hemod, add_zero, Int.toNat_natCast]
  rw [if_neg (by omega : ¬((da : Int) < 1))]
  rw [normUp_stay (by omega)]
  dsimp only
  rw [Int.toNat_natCast]

theorem mem_three {D M Y : Str} {sep c : Char} (hc : c ∈ D ++ sep :: (M ++ sep :: Y)) :
    c = sep ∨ c ∈ D ∨ c ∈ M ∨ c ∈ Y := by
  simp only [List.mem_append, List.mem_cons] at hc
  tauto

/-- C4 amended: for every valid calendar date with year at least 100
(outside the range captured by the JavaScript two-digit-year rule) and
every format, parsing the formatted text returns exactly the original
date. -/
theorem C4_amended_roundtrip (fmt : DateFormat) (d : CalDate)
    (hv : validCalDate d) (hy : 100 ≤ d.year) :
    parseDate fmt (formatDate fmt d) = some d := by
  obtain ⟨y, mo, da⟩ := d
  have hm : mo < 12 := hv.1
  have hd1 : 1 ≤ da := hv.2.1
  have hd2 : da ≤ daysInMonth y mo := hv.2.2
  have hy2 : (100 : Int) ≤ y := hy
  have hDdig := pad2_all_digit (natChars_all_digit da)
  have hMdig := pad2_all_digit (natChars_all_digit (mo + 1))
  have hyy : intChars y = natChars y.toNat := by
    unfold intChars
    rw [if_neg (by omega)]
  have hYdig : ∀ c ∈ intChars y, isDigitCh c = true := by
    rw [hyy]
    exact natChars_all_digit _
  have hDne : pad2 (natChars da) ≠ [] := pad2_ne_nil (natChars_ne_nil da)
  have hMne : pad2 (natChars (mo + 1)) ≠ [] := pad2_ne_nil (natChars_ne_nil (mo + 1))
  have hYne : intChars y ≠ [] := by
    rw [hyy]
    exact natChars_ne_nil _
  have hPD : parseIntJs (pad2 (natChars da)) = some (da : Int) := parseInt_pad2_natChars da
  have hPM : parseIntJs (pad2 (natChars (mo + 1))) = some ((mo + 1 : Nat) : Int) :=
    parseInt_pad2_natChars _
  have hPY : parseIntJs (intChars y) = some y := by
    rw [hyy, parseInt_natChars, Int.toNat_of_nonneg (by omega)]
  have hMap : Option.map (fun x => x - 1) (some ((mo + 1 : Nat) : Int)) =
      some ((mo : Nat) : Int) := by
    simp only [Option.map_some']
    congr 1
    push_cast
    ring
  have hNew : jsNewDate y (mo : Int) (da : Int) = ⟨y, mo, da⟩ := jsNewDate_id hm hd1 hd2 hy2
  have hDslash : ∀ x ∈ pad2 (natChars da), x ≠ '/' :=
    fun x hx => (digit_facts (hDdig x hx)).2.2.2
  have hMslash : ∀ x ∈ pad2 (natChars (mo + 1)), x ≠ '/' :=
    fun x hx => (digit_facts (hMdig x hx)).2.2.2
  have hYslash : ∀ x ∈ intChars y, x ≠ '/' :=
    fun x hx => (digit_facts (hYdig x hx)).2.2.2
  have hDdash : ∀ x ∈ pad2 (natChars da), x ≠ '-' :=
    fun x hx => (digit_facts (hDdig x hx)).2.1
  have hMdash : ∀ x ∈ pad2 (natChars (mo + 1)), x ≠ '-' :=
    fun x hx => (digit_facts (hMdig x hx)).2.1
  have hYdash : ∀ x ∈ intChars y, x ≠ '-' :=
    fun x hx => (digit_facts (hYdig x hx)).2.1
  cases fmt with
  | ddmmyyyy =>
    unfold formatDate parseDate
    dsimp only [sepOf]
    have hall : ∀ c ∈ pad2 (natChars da) ++ '/' :: (pad2 (natChars (mo + 1)) ++ '/' :: intChars y),
        isJsWs c = false := by
      intro c hc
      rcases mem_three hc with rfl | hc | hc | hc
      · decide
      · exact (digit_facts (hDdig c hc)).1
      · exact (digit_facts (hMdig c hc)).1
      · exact (digit_facts (hYdig c hc)).1
    rw [jsTrim_no_ws hall]
    rw [if_neg (by
      simp only [List.isEmpty_iff]
      exact ne_nil_append_left hDne)]
    rw [jsSplit_three hDslash hMslash hYslash]
    dsimp only
    rw [hPD, hPM, hMap, hPY]
    dsimp only
    rw [hNew]
    rw [if_pos ⟨rfl, rfl, rfl⟩]
  | mmddyyyy =>
    unfold formatDate parseDate
    dsimp only [sepOf]
    have hall : ∀ c ∈ pad2 (natChars (mo + 1)) ++ '/' :: (pad2 (natChars da) ++ '/' :: intChars y),
        isJsWs c = false := by
      intro c hc
      rcases mem_three hc with rfl | hc | hc | hc
      · decide
      · exact (digit_facts (hMdig c hc)).1
      · exact (digit_facts (hDdig c hc)).1
      · exact (digit_facts (hYdig c hc)).1
    rw [jsTrim_no_ws hall]
    rw [if_neg (by
      simp only [List.isEmpty_iff]
      exact ne_nil_append_left hMne)]
    rw [jsSplit_three hMslash hDslash hYslash]
    dsimp only
    rw [hPD, hPM, hMap, hPY]
    dsimp only
    rw [hNew]
    rw [if_pos ⟨rfl, rfl, rfl⟩]
  | yyyymmdd =>
    unfold formatDate parseDate
    dsimp only [sepOf]
    have hall : ∀ c ∈ intChars y ++ '-' :: (pad2 (natChars (mo + 1)) ++ '-' :: pad2 (natChars da)),
        isJsWs c = false := by
      intro c hc
      rcases mem_three hc with rfl | hc | hc | hc
      · decide
      · exact (digit_facts (hYdig c hc)).1
      · exact (digit_facts (hMdig c hc)).1
      · exact (digit_facts (hDdig c hc)).1
    rw [jsTrim_no_ws hall]
    rw [if_neg (by
      simp only [List.isEmpty_iff]
      exact ne_nil_append_left hYne)]
    rw [jsSplit_three hYdash hMdash hDdash]
    dsimp only
    rw [hPD, hPM, hMap, hPY]
    dsimp only
    rw [hNew]
    rw [if_pos ⟨rfl, rfl, rfl⟩]

/-- Witness for C4 amended: the 2024 leap day in DD/MM/YYYY
round-trips. -/
theorem C4_witness :
    parseDate .ddmmyyyy (formatDate .ddmmyyyy ⟨2024, 1, 29⟩) = some ⟨2024, 1, 29⟩ :=
  C4_amended_roundtrip .ddmmyyyy ⟨2024, 1, 29⟩ (by decide) (by decide)
